import Mathlib

/-!
Verification development for the cli-typing-game repository.

The embedding models the round engine of `src/hypertyper.py` (function
`streak_mode` and its helpers `get_combo_tier`, `load_words`) and the
high-score logic of `src/typing_game.py` (`check_high_score`).

Modelling decisions:
* Python strings handled by `load_words` are modelled as lists of Unicode
  codepoints (`PyStr := List Nat`). The builtins `str.lower`, `str.isalpha`
  and `str.strip` consult the Unicode character database of the Python
  runtime, which is external to this repository; their per-character
  behaviour is therefore a parameter (`PyStrTable`) carrying only facts the
  Unicode database guarantees, and the theorems about `load_words` hold for
  every such table, in particular Python's real one. A concrete ASCII
  restriction of the table is provided to evaluate witnesses.
* The engine compares typed input to the target word by plain equality, so
  engine-level words are ordinary Lean `String`s.
* All float values occurring in the game (`multiplier` in
  {1.0, 1.5, 2.0, 3.0, 5.0, 8.0}, the products `word_len * multiplier`,
  and the wpm arithmetic) are modelled as rationals; every float product
  `word_len * multiplier` appearing in the source is exact in binary
  floating point for realistic word lengths, and Python `int()` on these
  non-negative values is the floor.
* Wall-clock time is external input: each turn carries the two boolean
  results of the `elapsed >= time_limit` checks the source performs
  (before showing the word and after input), and the game-over screen
  takes the final elapsed reading as a rational parameter.
-/

/-- Codepoint-level model of a Python string, as used by `load_words`. -/
abbrev PyStr : Type := List Nat

/-- Conversion from a Lean string literal to its codepoint list. -/
def pyStr (s : String) : PyStr := s.data.map Char.toNat

/-- Length of a modelled Python string (`len`). -/
def PyStr.len (s : PyStr) : Nat := List.length s

/-- Character-level semantics of the Python string builtins called by
`load_words`. `str.lower`, `str.isalpha` and `str.strip` are defined by the
Unicode character database of the Python runtime, not by this repository's
source, so they are modelled as a table of per-character functions:
`lowerChar` is the (possibly multi-character) Unicode lowercase mapping of
a codepoint, `isAlphaChar` whether it is alphabetic, `isSpaceChar` whether
it is whitespace. The three recorded facts are guarantees of the Unicode
database: ASCII lowercase letters a-z are alphabetic and are fixed by the
lowercase mapping, and every codepoint produced by the lowercase mapping is
itself fixed by it (case stability of lowercase mappings, e.g. the dotted
capital I lowers to i plus a combining dot, both of which lower to
themselves). -/
structure PyStrTable where
  lowerChar : Nat → List Nat
  isAlphaChar : Nat → Bool
  isSpaceChar : Nat → Bool
  ascii_alpha : ∀ c, 97 ≤ c → c ≤ 122 → isAlphaChar c = true
  ascii_lower_fix : ∀ c, 97 ≤ c → c ≤ 122 → lowerChar c = [c]
  lower_stable : ∀ c d, d ∈ lowerChar c → lowerChar d = [d]

/-- The Unicode lowercase mapping restricted to ASCII: A-Z map to a-z,
everything else in the ASCII range is unchanged. -/
def asciiLowerChar (c : Nat) : List Nat :=
  if 65 ≤ c ∧ c ≤ 90 then [c + 32] else [c]

/-- Python `str.isalpha` restricted to ASCII: the letters A-Z and a-z. -/
def asciiIsAlphaChar (c : Nat) : Bool :=
  (65 ≤ c ∧ c ≤ 90) ∨ (97 ≤ c ∧ c ≤ 122)

/-- Python `str.isspace` restricted to ASCII: space, tab through carriage
return, and the separator control characters 28-31, which Python also
treats as whitespace. -/
def asciiIsSpaceChar (c : Nat) : Bool :=
  c = 32 ∨ (9 ≤ c ∧ c ≤ 13) ∨ (28 ≤ c ∧ c ≤ 31)

/-- Python's character tables restricted to ASCII codepoints: a valid
`PyStrTable` that agrees with the Python runtime on every ASCII-only
input, used to evaluate the model on concrete witnesses. -/
def asciiTable : PyStrTable where
  lowerChar := asciiLowerChar
  isAlphaChar := asciiIsAlphaChar
  isSpaceChar := asciiIsSpaceChar
  ascii_alpha := by
    intro c h1 h2
    simp only [asciiIsAlphaChar, decide_eq_true_eq]
    omega
  ascii_lower_fix := by
    intro c h1 h2
    unfold asciiLowerChar
    rw [if_neg (by omega : ¬(65 ≤ c ∧ c ≤ 90))]
  lower_stable := by
    intro c d hd
    unfold asciiLowerChar at hd ⊢
    split_ifs at hd with h
    · simp only [List.mem_singleton] at hd
      subst hd
      rw [if_neg (by omega : ¬(65 ≤ c + 32 ∧ c + 32 ≤ 90))]
    · simp only [List.mem_singleton] at hd
      subst hd
      rw [if_neg h]

/-- Python `str.strip`: drop leading and trailing whitespace. -/
def pyStrip (tbl : PyStrTable) (s : PyStr) : PyStr :=
  ((List.dropWhile tbl.isSpaceChar s).reverse.dropWhile
    tbl.isSpaceChar).reverse

/-- Python `str.lower` on a whole string: the concatenation of the
lowercase mappings of its characters. -/
def pyLower (tbl : PyStrTable) (s : PyStr) : PyStr := s.flatMap tbl.lowerChar

/-- Python `str.isalpha` on a whole string: non-empty and all alphabetic. -/
def pyIsAlpha (tbl : PyStrTable) (s : PyStr) : Bool :=
  decide (s ≠ []) && s.all tbl.isAlphaChar

/-- Backup word pool, from `BACKUP_WORDS` in `src/hypertyper.py`. -/
def BACKUP_WORDS : List PyStr :=
  [pyStr "apple", pyStr "banana", pyStr "cherry", pyStr "date",
   pyStr "elderberry", pyStr "fig", pyStr "grape", pyStr "lemon",
   pyStr "lime", pyStr "mango"]

/-- One line of the word file in normalized mode: `w = line.strip().lower()`,
kept when `len(w) >= 3 and w.isalpha()` (from `load_words`). -/
def normalizeLine (tbl : PyStrTable) (line : PyStr) : Option PyStr :=
  let w := pyLower tbl (pyStrip tbl line)
  if 3 ≤ w.len ∧ pyIsAlpha tbl w then some w else none

/-- The qualifying entries of a word file read in normalized mode. -/
def normalizedWords (tbl : PyStrTable) (lines : List PyStr) : List PyStr :=
  lines.filterMap (normalizeLine tbl)

/-- One line of the word file in exact mode: `w = line.strip()`, kept when
non-empty (from `load_words`). -/
def exactLine (tbl : PyStrTable) (line : PyStr) : Option PyStr :=
  let w := pyStrip tbl line
  if w ≠ [] then some w else none

/-- Model of `load_words` from `src/hypertyper.py`. The file content is
`some lines` when the file exists and is readable, `none` when it is missing
or reading raises `IOError` (both leave `words` empty in the source). An
empty filtered list falls back to `BACKUP_WORDS`. -/
def load_words (tbl : PyStrTable) (fileContent : Option (List PyStr))
    (exact_match : Bool) : List PyStr :=
  let words : List PyStr :=
    match fileContent with
    | none => []
    | some lines =>
        if exact_match then lines.filterMap (exactLine tbl)
        else normalizedWords tbl lines
  if words = [] then BACKUP_WORDS else words

/-- Model of `get_combo_tier` from `src/hypertyper.py` (identical in
`src/typing_game.py`): returns the tier name and score multiplier for a
combo count. The third component of the source's tuple is a terminal color
code, which is presentation-only and dropped here. -/
def get_combo_tier (combo : Nat) : String × ℚ :=
  if combo ≥ 12 then ("GOD MODE", 8.0)
  else if combo ≥ 10 then ("UNSTOPPABLE", 5.0)
  else if combo ≥ 7 then ("SURGE", 3.0)
  else if combo ≥ 5 then ("OVERCLOCKED", 2.0)
  else if combo ≥ 3 then ("FLOW STATE", 1.5)
  else ("", 1.0)

/-- Mutable per-round counters of `streak_mode`: `score`,
`total_chars_typed`, `correct_words`, `combo`. -/
structure RoundState where
  score : Nat
  total_chars_typed : Nat
  correct_words : Nat
  combo : Nat
deriving Repr, DecidableEq

/-- The counters as initialised at the top of each round in `streak_mode`. -/
def initRound : RoundState :=
  { score := 0, total_chars_typed := 0, correct_words := 0, combo := 0 }

/-- Side effects the round loop emits toward the player: the sounds and
messages of `streak_mode` (`victory` on timeout, `correct` with the awarded
points, `levelup` on a tier boundary, `wrong`/gameover with typed and
expected word). -/
inductive GameEvent where
  | victory : GameEvent
  | correct (word : String) (points : Nat) : GameEvent
  | levelup : GameEvent
  | wrong (typed expected : String) : GameEvent
deriving Repr, DecidableEq

/-- How a round ends: the two `break` paths of the inner loop of
`streak_mode` - clock expiry, or a wrong answer (sudden death). -/
inductive EndKind where
  | timedOut : EndKind
  | failed : EndKind
deriving Repr, DecidableEq

/-- External inputs consumed by one iteration of the inner loop of
`streak_mode`: the results of the two `elapsed >= time_limit` clock reads,
the randomly drawn target word, and the stripped typed input. -/
structure TurnInput where
  expiredBefore : Bool
  target : String
  typed : String
  expiredAfter : Bool
deriving Repr, DecidableEq

/-- Result of one iteration of the inner loop: either the round ended
(timeout or failure) or the loop continues with updated counters. Both
carry the events emitted during the iteration. -/
inductive TurnResult where
  | ended (kind : EndKind) (s : RoundState) (evs : List GameEvent) : TurnResult
  | cont (s : RoundState) (evs : List GameEvent) : TurnResult
deriving Repr, DecidableEq

/-- Events emitted during a turn, whichever way it went. -/
def TurnResult.events : TurnResult → List GameEvent
  | .ended _ _ evs => evs
  | .cont _ evs => evs

/-- One iteration of the inner `while True` loop of `streak_mode`
(`src/hypertyper.py` lines 429-518): time check before the word, tier
computed from the pre-turn combo, time check after input, then the sudden
death comparison. On a correct answer `combo += 1`,
`points = int(word_len * multiplier)` with the multiplier captured before
the increment, `score += points`, `total_chars_typed += word_len`,
`correct_words += 1`, and a levelup fires when the new combo is exactly in
[3, 5, 7, 10, 12]. On a wrong answer `combo = 0` and the round ends. -/
def runTurn (s : RoundState) (t : TurnInput) : TurnResult :=
  if t.expiredBefore then
    .ended .timedOut s [.victory]
  else
    let multiplier : ℚ := (get_combo_tier s.combo).2
    if t.expiredAfter then
      .ended .timedOut s [.victory]
    else if t.typed = t.target then
      let combo' := s.combo + 1
      let word_len := t.target.length
      let points : Nat := (⌊(word_len : ℚ) * multiplier⌋).toNat
      let s' : RoundState :=
        { score := s.score + points,
          total_chars_typed := s.total_chars_typed + word_len,
          correct_words := s.correct_words + 1,
          combo := combo' }
      .cont s'
        (.correct t.target points ::
          (if combo' ∈ ([3, 5, 7, 10, 12] : List Nat) then [.levelup] else []))
    else
      .ended .failed { s with combo := 0 } [.wrong t.typed t.target]

/-- The inner loop of `streak_mode` run over a stream of turn inputs,
accumulating emitted events. Returns `none` when the supplied stream is
exhausted before the round ends (the real loop would keep asking for
input). -/
def runRound (s : RoundState) :
    List TurnInput → Option (EndKind × RoundState × List GameEvent)
  | [] => none
  | t :: ts =>
    match runTurn s t with
    | .ended k s' evs => some (k, s', evs)
    | .cont s' evs =>
        match runRound s' ts with
        | none => none
        | some (k, s'', evs') => some (k, s'', evs ++ evs')

/-- The game-over statistics of `streak_mode` (`src/hypertyper.py` lines
520-535): elapsed clamped up to 1 second, minutes, and words per minute. -/
structure RoundSummary where
  final_score : Nat
  elapsed : ℚ
  correct_words : Nat
  total_chars_typed : Nat
  wpm : ℚ
deriving Repr, DecidableEq

/-- The game-over computation of `streak_mode`: `final_elapsed` is raised to
1.0 when below it, `minutes = final_elapsed / 60.0`, and
`wpm = (total_chars_typed / 5.0) / minutes if minutes > 0 else 0`. -/
def mkSummary (s : RoundState) (finalElapsed : ℚ) : RoundSummary :=
  let final_elapsed : ℚ := if finalElapsed < 1 then 1 else finalElapsed
  let minutes : ℚ := final_elapsed / 60
  let wpm : ℚ :=
    if minutes > 0 then ((s.total_chars_typed : ℚ) / 5) / minutes else 0
  { final_score := s.score,
    elapsed := final_elapsed,
    correct_words := s.correct_words,
    total_chars_typed := s.total_chars_typed,
    wpm := wpm }

/-- Assoc-list read with default, modelling `scores.get(mode_name, 0)` in
`check_high_score` of `src/typing_game.py`. -/
def dictGet (scores : List (String × Nat)) (mode : String) (dflt : Nat) :
    Nat :=
  match scores.lookup mode with
  | some v => v
  | none => dflt

/-- Assoc-list write, modelling the Python dict assignment
`scores[mode_name] = score`: replace the first binding or append. -/
def dictSet : List (String × Nat) → String → Nat → List (String × Nat)
  | [], k, v => [(k, v)]
  | (k', v') :: rest, k, v =>
      if k' = k then (k, v) :: rest else (k', v') :: dictSet rest k v

/-- Model of `check_high_score` from `src/typing_game.py`: update the stored
score for a mode when the new score is strictly higher. The source returns a
message string and persists via `save_high_scores`; here the updated map is
returned together with a boolean telling which branch (new record or not)
was taken. -/
def check_high_score (scores : List (String × Nat)) (mode : String)
    (score : Nat) : List (String × Nat) × Bool :=
  let current_best := dictGet scores mode 0
  if score > current_best then (dictSet scores mode score, true)
  else (scores, false)

/-! ## Helper lemmas -/

/-- Every tier multiplier in the table is at least 1. -/
lemma one_le_multiplier (c : Nat) : (1 : ℚ) ≤ (get_combo_tier c).2 := by
  unfold get_combo_tier
  split_ifs <;> norm_num

/-- The points for a correct word of length `L` are at least `L`, since the
multiplier is at least 1. -/
lemma le_points (L c : Nat) :
    L ≤ (⌊(L : ℚ) * (get_combo_tier c).2⌋).toNat := by
  have hm := one_le_multiplier c
  have h1 : (L : ℚ) ≤ (L : ℚ) * (get_combo_tier c).2 := by
    nlinarith [hm, Nat.cast_nonneg (α := ℚ) L]
  have h2 : (L : ℤ) ≤ ⌊(L : ℚ) * (get_combo_tier c).2⌋ := by
    rw [Int.le_floor]
    exact_mod_cast h1
  omega

/-- Looking up a key right after writing it yields the written value. -/
lemma lookup_dictSet (l : List (String × Nat)) (k : String) (v : Nat) :
    (dictSet l k v).lookup k = some v := by
  induction l with
  | nil => simp [dictSet]
  | cons p rest ih =>
      obtain ⟨k', v'⟩ := p
      by_cases h : k' = k
      · simp [dictSet, h]
      · have hne : (k == k') = false := by
          simp only [beq_eq_false_iff_ne, ne_eq]
          exact fun hk => h hk.symm
        simp [dictSet, h, List.lookup, hne, ih]

/-- The state carried by a turn result, whichever way the turn went. -/
def TurnResult.state : TurnResult → RoundState
  | .ended _ s _ => s
  | .cont s _ => s

/-- A single loop iteration preserves `total_chars_typed ≤ score`. -/
lemma runTurn_preserves_score_ge (s : RoundState) (t : TurnInput)
    (hs : s.total_chars_typed ≤ s.score) :
    (runTurn s t).state.total_chars_typed ≤ (runTurn s t).state.score := by
  have hp := le_points t.target.length s.combo
  unfold runTurn
  split_ifs <;> simp [TurnResult.state] <;> omega

/-- Running the loop from a state satisfying `total_chars_typed ≤ score`
ends in a state satisfying it as well. -/
lemma runRound_preserves_score_ge (ts : List TurnInput) :
    ∀ s : RoundState, s.total_chars_typed ≤ s.score →
      ∀ k s' evs, runRound s ts = some (k, s', evs) →
        s'.total_chars_typed ≤ s'.score := by
  induction ts with
  | nil => intro s hs k s' evs h; simp [runRound] at h
  | cons t ts ih =>
      intro s hs k s' evs h
      have hstep := runTurn_preserves_score_ge s t hs
      unfold runRound at h
      cases hr : runTurn s t with
      | ended k0 s0 evs0 =>
          rw [hr] at h hstep
          simp only [TurnResult.state] at hstep
          simp only [Option.some.injEq] at h
          cases h
          exact hstep
      | cont s0 evs0 =>
          rw [hr] at h hstep
          simp only [TurnResult.state] at hstep
          dsimp only at h
          cases hrec : runRound s0 ts with
          | none => rw [hrec] at h; simp at h
          | some r =>
              obtain ⟨k1, s1, evs1⟩ := r
              rw [hrec] at h
              simp only [Option.some.injEq] at h
              cases h
              exact ih s0 hstep _ _ _ hrec

/-! ## Claim theorems -/

/-- C1: in any turn where the typed input equals the target word of length
L and the clock has not expired at either check, the engine adds exactly
`floor(L * m)` to the score, with `m` the multiplier computed by
`get_combo_tier` from the combo value before the increment; combo increases
by 1, `total_chars_typed` by L, and `correct_words` by 1. -/
theorem correct_turn_scoring (s : RoundState) (t : TurnInput)
    (hb : t.expiredBefore = false) (ha : t.expiredAfter = false)
    (heq : t.typed = t.target) :
    ∃ evs, runTurn s t = .cont
      { score := s.score +
          (⌊(t.target.length : ℚ) * (get_combo_tier s.combo).2⌋).toNat,
        total_chars_typed := s.total_chars_typed + t.target.length,
        correct_words := s.correct_words + 1,
        combo := s.combo + 1 } evs := by
  refine ⟨GameEvent.correct t.target
      ((⌊(t.target.length : ℚ) * (get_combo_tier s.combo).2⌋).toNat) ::
    (if s.combo + 1 ∈ ([3, 5, 7, 10, 12] : List Nat) then [GameEvent.levelup]
     else []), ?_⟩
  simp [runTurn, hb, ha, heq]

/-- Witness for C1: a concrete correct turn from the initial state. -/
theorem correct_turn_scoring_witness :
    ∃ evs, runTurn initRound ⟨false, "test", "test", false⟩ = .cont
      { score := 0 +
          (⌊(("test".length : Nat) : ℚ) * (get_combo_tier 0).2⌋).toNat,
        total_chars_typed := 0 + "test".length,
        correct_words := 0 + 1,
        combo := 0 + 1 } evs :=
  correct_turn_scoring initRound ⟨false, "test", "test", false⟩ rfl rfl rfl

/-- C2: in any turn where the typed input differs from the target word and
the clock has not expired at either check, combo is set to 0 and the round
ends immediately in the failed state, whatever time remains. -/
theorem wrong_answer_sudden_death (s : RoundState) (t : TurnInput)
    (hb : t.expiredBefore = false) (ha : t.expiredAfter = false)
    (hne : t.typed ≠ t.target) :
    runTurn s t = .ended .failed { s with combo := 0 }
      [.wrong t.typed t.target] := by
  simp [runTurn, hb, ha, hne]

/-- Witness for C2: a concrete wrong answer from the initial state. -/
theorem wrong_answer_sudden_death_witness :
    runTurn initRound ⟨false, "test", "oops", false⟩ =
      .ended .failed { initRound with combo := 0 } [.wrong "oops" "test"] :=
  wrong_answer_sudden_death initRound ⟨false, "test", "oops", false⟩
    rfl rfl (by decide)

/-- C3: the clock is checked before the word is shown and again after
input; expiry at the first check ends the round timed out with the state
untouched (zero turns played when the state is the initial one), and expiry
at the post-input check ends it timed out with the just-typed answer never
scored: score, combo, correct_words and total_chars_typed are all unchanged
by that turn, even when the input matched the target word. -/
theorem double_time_check (s : RoundState) (t : TurnInput)
    (ts : List TurnInput) :
    (t.expiredBefore = true →
      runRound s (t :: ts) = some (.timedOut, s, [.victory])) ∧
    (t.expiredBefore = false → t.expiredAfter = true →
      runRound s (t :: ts) = some (.timedOut, s, [.victory])) := by
  constructor
  · intro hb
    simp [runRound, runTurn, hb]
  · intro hb ha
    simp [runRound, runTurn, hb, ha]

/-- Witness for C3: a round whose clock expires only after a correctly
typed answer ends timed out with the initial state intact. -/
theorem double_time_check_witness :
    runRound initRound [⟨false, "test", "test", true⟩] =
      some (.timedOut, initRound, [.victory]) :=
  (double_time_check initRound ⟨false, "test", "test", true⟩ []).2 rfl rfl

/-- C4: `get_combo_tier` returns exactly the tabulated tier for every
non-negative combo: multiplier 1.0 with no name for 0-2, FLOW STATE 1.5 for
3-4, OVERCLOCKED 2.0 for 5-6, SURGE 3.0 for 7-9, UNSTOPPABLE 5.0 for
10-11, and GOD MODE 8.0 for every combo at least 12. -/
theorem tier_table_exact (c : Nat) :
    (c ≤ 2 → get_combo_tier c = ("", 1.0)) ∧
    (3 ≤ c → c ≤ 4 → get_combo_tier c = ("FLOW STATE", 1.5)) ∧
    (5 ≤ c → c ≤ 6 → get_combo_tier c = ("OVERCLOCKED", 2.0)) ∧
    (7 ≤ c → c ≤ 9 → get_combo_tier c = ("SURGE", 3.0)) ∧
    (10 ≤ c → c ≤ 11 → get_combo_tier c = ("UNSTOPPABLE", 5.0)) ∧
    (12 ≤ c → get_combo_tier c = ("GOD MODE", 8.0)) := by
  unfold get_combo_tier
  refine ⟨?_, ?_, ?_, ?_, ?_, ?_⟩ <;> intros <;>
    split_ifs <;> first | rfl | omega

/-- Witness for C4: the boundary combo 3 is FLOW STATE with multiplier
1.5. -/
theorem tier_table_exact_witness :
    get_combo_tier 3 = ("FLOW STATE", 1.5) :=
  (tier_table_exact 3).2.1 (by decide) (by decide)

/-- C5: the high-score ledger is a monotonic ratchet: after recording, the
stored score is the max of the old value and the new score, a new record is
reported exactly when the new score is strictly greater, the stored value
never decreases, and a lower or equal score leaves the map unchanged. -/
theorem high_score_ratchet (scores : List (String × Nat)) (mode : String)
    (score : Nat) :
    dictGet (check_high_score scores mode score).1 mode 0 =
      max (dictGet scores mode 0) score ∧
    (check_high_score scores mode score).2 =
      decide (dictGet scores mode 0 < score) ∧
    dictGet scores mode 0 ≤
      dictGet (check_high_score scores mode score).1 mode 0 ∧
    (score ≤ dictGet scores mode 0 →
      (check_high_score scores mode score).1 = scores) := by
  have hset : dictGet (dictSet scores mode score) mode 0 = score := by
    unfold dictGet
    rw [lookup_dictSet]
  unfold check_high_score
  dsimp only
  split_ifs with h
  · simp only [hset]
    refine ⟨by omega, by simp [h], by omega, fun hle => absurd h (by omega)⟩
  · refine ⟨by dsimp only; omega, by simp [h], by dsimp only; omega,
      fun _ => rfl⟩

/-- Witness for C5: recording 30 over a stored 50 leaves the map
unchanged. -/
theorem high_score_ratchet_witness :
    (check_high_score [("Streak", 50)] "Streak" 30).1 = [("Streak", 50)] :=
  (high_score_ratchet [("Streak", 50)] "Streak" 30).2.2.2 (by decide)

/-- C7: a levelup (tier-up) event is emitted exactly when a correct answer
makes the new combo hit one of the boundaries 3, 5, 7, 10, 12; it is never
emitted on other correct turns, nor after a wrong answer or a timeout. -/
theorem tier_up_on_boundary (s : RoundState) (t : TurnInput) :
    (t.expiredBefore = false → t.expiredAfter = false →
      t.typed = t.target →
      (GameEvent.levelup ∈ (runTurn s t).events ↔
        s.combo + 1 ∈ ([3, 5, 7, 10, 12] : List Nat))) ∧
    (t.expiredBefore = true →
      GameEvent.levelup ∉ (runTurn s t).events) ∧
    (t.expiredBefore = false → t.expiredAfter = true →
      GameEvent.levelup ∉ (runTurn s t).events) ∧
    (t.expiredBefore = false → t.expiredAfter = false →
      t.typed ≠ t.target →
      GameEvent.levelup ∉ (runTurn s t).events) := by
  refine ⟨?_, ?_, ?_, ?_⟩
  · intro hb ha heq
    by_cases hc : s.combo + 1 ∈ ([3, 5, 7, 10, 12] : List Nat) <;>
      simp_all [runTurn, TurnResult.events]
  · intro hb
    simp [runTurn, TurnResult.events, hb]
  · intro hb ha
    simp [runTurn, TurnResult.events, hb, ha]
  · intro hb ha hne
    simp [runTurn, TurnResult.events, hb, ha, hne]

/-- Witness for C7: reaching combo 3 on a correct answer emits a
levelup. -/
theorem tier_up_on_boundary_witness :
    GameEvent.levelup ∈
      (runTurn { score := 10, total_chars_typed := 10, correct_words := 2,
                 combo := 2 } ⟨false, "fig", "fig", false⟩).events ↔
      (2 : Nat) + 1 ∈ ([3, 5, 7, 10, 12] : List Nat) :=
  (tier_up_on_boundary
    { score := 10, total_chars_typed := 10, correct_words := 2, combo := 2 }
    ⟨false, "fig", "fig", false⟩).1 rfl rfl rfl

/-- C8: the combo-tier multiplier is total and monotonic: a higher or equal
combo never yields a smaller multiplier. -/
theorem multiplier_monotone (c1 c2 : Nat) (h : c1 ≤ c2) :
    (get_combo_tier c1).2 ≤ (get_combo_tier c2).2 := by
  unfold get_combo_tier
  split_ifs <;> first | (exfalso; omega) | norm_num

/-- Witness for C8: combo 2 has a multiplier no larger than combo 12. -/
theorem multiplier_monotone_witness :
    (get_combo_tier 2).2 ≤ (get_combo_tier 12).2 :=
  multiplier_monotone 2 12 (by decide)

/-- C10: score dominates total_chars_typed throughout any round: the
property is preserved by every single turn and by any full run of the
loop, because each correct answer awards at least as many points as the
word's length (every multiplier is at least 1) and nothing decreases the
score. -/
theorem score_ge_total_chars (s : RoundState) (t : TurnInput)
    (ts : List TurnInput) (hs : s.total_chars_typed ≤ s.score) :
    (runTurn s t).state.total_chars_typed ≤ (runTurn s t).state.score ∧
    (∀ k s' evs, runRound s ts = some (k, s', evs) →
      s'.total_chars_typed ≤ s'.score) :=
  ⟨runTurn_preserves_score_ge s t hs,
   fun k s' evs h => runRound_preserves_score_ge ts s hs k s' evs h⟩

/-- Witness for C10: the invariant holds after a concrete two-turn run from
the initial state. -/
theorem score_ge_total_chars_witness :
    (runTurn initRound ⟨false, "mango", "mango", false⟩).state.total_chars_typed ≤
      (runTurn initRound ⟨false, "mango", "mango", false⟩).state.score ∧
    (∀ k s' evs,
      runRound initRound [⟨false, "mango", "mango", false⟩,
        ⟨false, "lime", "lime", true⟩] = some (k, s', evs) →
      s'.total_chars_typed ≤ s'.score) :=
  score_ge_total_chars initRound ⟨false, "mango", "mango", false⟩
    [⟨false, "mango", "mango", false⟩, ⟨false, "lime", "lime", true⟩]
    (by decide)

/-- A string whose characters are all fixed points of the lowercase
mapping is unchanged by lowering. -/
lemma pyLower_eq_self_of_fix (tbl : PyStrTable) (u : PyStr)
    (h : ∀ d ∈ u, tbl.lowerChar d = [d]) : pyLower tbl u = u := by
  unfold pyLower
  induction u with
  | nil => simp
  | cons x xs ih =>
      rw [List.flatMap_cons, h x (List.mem_cons_self x xs),
        ih (fun d hd => h d (List.mem_cons_of_mem x hd))]
      rfl

/-- By case stability of the lowercase mapping, a lowered string is itself
lowercase: lowering it again changes nothing. -/
lemma pyLower_pyLower (tbl : PyStrTable) (s : PyStr) :
    pyLower tbl (pyLower tbl s) = pyLower tbl s := by
  apply pyLower_eq_self_of_fix
  intro d hd
  unfold pyLower at hd
  rw [List.mem_flatMap] at hd
  obtain ⟨c, _, hdc⟩ := hd
  exact tbl.lower_stable c d hdc

/-- Every backup word has length at least 3 and only the ASCII letters
a-z. -/
lemma backup_chars :
    ∀ w ∈ BACKUP_WORDS, 3 ≤ w.len ∧ ∀ c ∈ w, 97 ≤ c ∧ c ≤ 122 := by
  decide

/-- Under any character table, every backup word is a qualifying
normalized entry: long enough, alphabetic, and fixed by lowering. -/
lemma backup_words_normalized (tbl : PyStrTable) (w : PyStr)
    (hw : w ∈ BACKUP_WORDS) :
    3 ≤ w.len ∧ pyIsAlpha tbl w = true ∧ pyLower tbl w = w := by
  obtain ⟨hlen, hchars⟩ := backup_chars w hw
  refine ⟨hlen, ?_, ?_⟩
  · unfold pyIsAlpha
    rw [Bool.and_eq_true, List.all_eq_true]
    constructor
    · rw [decide_eq_true_eq]
      intro hnil
      rw [hnil] at hlen
      simp [PyStr.len] at hlen
    · intro c hc
      have hr := hchars c hc
      exact tbl.ascii_alpha c hr.1 hr.2
  · apply pyLower_eq_self_of_fix
    intro d hd
    have hr := hchars d hd
    exact tbl.ascii_lower_fix d hr.1 hr.2

/-- Every entry surviving the normalized-mode filter of `load_words` has
length at least 3, is purely alphabetic, and is lowercase (fixed by the
lowercase mapping). -/
lemma mem_normalizedWords (tbl : PyStrTable) (lines : List PyStr)
    (w : PyStr) (hw : w ∈ normalizedWords tbl lines) :
    3 ≤ w.len ∧ pyIsAlpha tbl w = true ∧ pyLower tbl w = w := by
  unfold normalizedWords at hw
  rw [List.mem_filterMap] at hw
  obtain ⟨line, _, hline⟩ := hw
  unfold normalizeLine at hline
  dsimp only at hline
  split_ifs at hline with hcond
  · cases hline
    exact ⟨hcond.1, hcond.2, pyLower_pyLower tbl (pyStrip tbl line)⟩

/-- C6: the end-of-round summary has `final_score` equal to the accumulated
score, elapsed clamped to `max 1 e` so the wpm divisor is never zero, and
`wpm = (total_chars_typed / 5) / (elapsed / 60)`; a round whose clock is
already expired at the start ends timed out with `correct_words = 0` and
`wpm = 0`. -/
theorem round_summary_formulas (s : RoundState) (e : ℚ) (t : TurnInput)
    (ts : List TurnInput) :
    (mkSummary s e).final_score = s.score ∧
    (mkSummary s e).elapsed = max 1 e ∧
    (mkSummary s e).wpm =
      ((s.total_chars_typed : ℚ) / 5) / (max 1 e / 60) ∧
    (t.expiredBefore = true →
      runRound initRound (t :: ts) =
        some (.timedOut, initRound, [.victory]) ∧
      (mkSummary initRound e).correct_words = 0 ∧
      (mkSummary initRound e).wpm = 0) := by
  have hmax : (if e < 1 then (1 : ℚ) else e) = max 1 e := by
    rcases lt_or_le e 1 with h | h
    · simp [h, max_eq_left h.le]
    · simp [not_lt.mpr h, max_eq_right h]
  have hm : (0 : ℚ) < (if e < 1 then (1 : ℚ) else e) / 60 := by
    have h1 : (1 : ℚ) ≤ (if e < 1 then (1 : ℚ) else e) := by
      split_ifs with h
      · exact le_refl 1
      · exact not_lt.mp h
    have h60 : (0 : ℚ) < 60 := by norm_num
    exact div_pos (by linarith) h60
  refine ⟨rfl, ?_, ?_, ?_⟩
  · simp only [mkSummary]
    exact hmax
  · simp only [mkSummary]
    rw [if_pos hm, hmax]
  · intro hb
    refine ⟨by simp [runRound, runTurn, hb], rfl, ?_⟩
    simp [mkSummary, initRound]

/-- Witness for C6: summary of a round whose clock expired at the very
start, with final elapsed reading 0. -/
theorem round_summary_formulas_witness :
    (mkSummary initRound 0).elapsed = max 1 0 ∧
    runRound initRound [⟨true, "fig", "", false⟩] =
      some (.timedOut, initRound, [.victory]) ∧
    (mkSummary initRound 0).correct_words = 0 ∧
    (mkSummary initRound 0).wpm = 0 :=
  ⟨(round_summary_formulas initRound 0 ⟨true, "fig", "", false⟩ []).2.1,
   ((round_summary_formulas initRound 0 ⟨true, "fig", "", false⟩ []).2.2.2
     rfl).1,
   ((round_summary_formulas initRound 0 ⟨true, "fig", "", false⟩ []).2.2.2
     rfl).2.1,
   ((round_summary_formulas initRound 0 ⟨true, "fig", "", false⟩ []).2.2.2
     rfl).2.2⟩

/-- C9: for every character table satisfying the Unicode database's
guarantees (hence for Python's real one), loading words in normalized mode
never yields an empty pool and never fails: every returned entry has
length at least 3, is purely alphabetic per `str.isalpha`, and is
lowercase (unchanged by `str.lower`); a missing or unreadable file, and a
file with no qualifying line, both fall back to the fixed backup list. -/
theorem load_words_normalized_safe (tbl : PyStrTable)
    (fileContent : Option (List PyStr)) :
    load_words tbl fileContent false ≠ [] ∧
    (∀ w ∈ load_words tbl fileContent false,
      3 ≤ w.len ∧ pyIsAlpha tbl w = true ∧ pyLower tbl w = w) ∧
    load_words tbl none false = BACKUP_WORDS ∧
    (∀ lines, fileContent = some lines →
      normalizedWords tbl lines = [] →
      load_words tbl fileContent false = BACKUP_WORDS) := by
  refine ⟨?_, ?_, ?_, ?_⟩
  · cases fileContent with
    | none =>
        show BACKUP_WORDS ≠ []
        decide
    | some lines =>
        simp only [load_words, Bool.false_eq_true, if_false]
        split_ifs with h
        · decide
        · exact h
  · intro w hw
    cases fileContent with
    | none =>
        exact backup_words_normalized tbl w hw
    | some lines =>
        simp only [load_words, Bool.false_eq_true, if_false] at hw
        split_ifs at hw with h
        · exact backup_words_normalized tbl w hw
        · exact mem_normalizedWords tbl lines w hw
  · rfl
  · intro lines hfc hempty
    subst hfc
    simp [load_words, hempty]

/-- Witness for C9: under the ASCII table, a file whose only line is too
short falls back to the backup list. -/
theorem load_words_normalized_safe_witness :
    load_words asciiTable (some [pyStr "hi"]) false = BACKUP_WORDS :=
  (load_words_normalized_safe asciiTable (some [pyStr "hi"])).2.2.2
    [pyStr "hi"] rfl (by decide)
